import Mathlib

/-!
Verification of `android_otp_extractor/contrib.py`.

The file shallowly embeds the three components of the module:

* `open_remote_sqlite_database` — the remote snapshot loader: computing the
  four candidate remote paths, the pull loop with its error handling, and the
  scoped cleanup of the connection and the temporary directory, modelled as an
  explicit event trace;
* `escape_sql_string` — the SQL literal escaper, together with a model of
  SQL (SQLite) string-literal parsing used to examine the round-trip claim;
* `display_qr_codes` — the disclosure renderer: sorting the account URIs,
  serializing them with `json.dumps(..., indent=12)`, the
  `.replace("]", "        ]")` post-processing step, and the
  create/open/sleep/delete lifecycle of the temporary HTML file, again as an
  explicit event trace.
-/

/-! ## Paths: the fragment of `pathlib.PurePosixPath` the loader uses -/

/-- A parsed POSIX path: whether it is absolute, plus its normalized
components (empty and single-dot components dropped), mirroring
`pathlib.PurePosixPath`. -/
structure PurePosixPath where
  absolute : Bool
  parts : List String
deriving DecidableEq

/-- Split a character list at every slash. -/
def splitOnSlash : List Char → List (List Char)
  | [] => [[]]
  | c :: rest =>
    match splitOnSlash rest with
    | [] => [[]]
    | h :: t => if c = '/' then [] :: h :: t else (c :: h) :: t

/-- Parse a string into a `PurePosixPath`, as `PurePosixPath(database)` does:
split on slashes and drop empty and `.` components. -/
def parsePosix (s : String) : PurePosixPath :=
  { absolute := s.toList.head? == some '/'
    parts := ((splitOnSlash s.toList).map String.mk).filter (fun c => c != "" && c != ".") }

/-- `PurePosixPath.name`: the final component, or the empty string when there
is none. -/
def PurePosixPath.name (p : PurePosixPath) : String :=
  p.parts.getLast?.getD ""

/-- `PurePosixPath.with_name(n)`: replace the final component by `n`.  The
Python original raises `ValueError` when the path has an empty name; the
theorems about the loader therefore carry the hypothesis `p.parts ≠ []`. -/
def PurePosixPath.withName (p : PurePosixPath) (n : String) : PurePosixPath :=
  { absolute := p.absolute, parts := p.parts.dropLast ++ [n] }

/-! ## The snapshot loader -/

/-- File contents as a byte list. -/
def Bytes := List Nat
deriving DecidableEq

/-- Exceptions visible to the loader: Python's `FileNotFoundError` versus any
other exception class, each carrying an opaque identity so that "propagates
unchanged" is expressible. -/
inductive Exn where
  | fileNotFound (e : Nat)
  | other (e : Nat)
deriving DecidableEq

/-- The suffix list of the pull loop, in source order:
`for suffix in ['', '-journal', '-wal', '-shm']`. -/
def loaderSuffixes : List String := ["", "-journal", "-wal", "-shm"]

/-- The side-file suffixes alone. -/
def sideSuffixes : List String := ["-journal", "-wal", "-shm"]

/-- `remote_file = database.with_name(database.name + suffix)`. -/
def remoteFile (db : PurePosixPath) (suffix : String) : PurePosixPath :=
  db.withName (db.name ++ suffix)

/-- One run of the pull loop over a list of suffixes.  For each suffix the
loader reads `remote_file` from the device bridge; `FileNotFoundError` on the
primary file (empty suffix) stops the loop with that error, `FileNotFoundError`
on a side file is skipped, any other error stops the loop, and a successful
read is persisted under `remote_file.name`.  Returns the files written before
the loop ended together with the error that ended it, if any. -/
def pullFilesAux (adb : PurePosixPath → Except Exn Bytes) (db : PurePosixPath) :
    List String → List (String × Bytes) × Option Exn
  | [] => ([], none)
  | suffix :: rest =>
    match adb (remoteFile db suffix) with
    | .error (.fileNotFound e) =>
      if suffix = "" then ([], some (.fileNotFound e))
      else pullFilesAux adb db rest
    | .error (.other e) => ([], some (.other e))
    | .ok bs =>
      let r := pullFilesAux adb db rest
      (((remoteFile db suffix).name, bs) :: r.1, r.2)

/-- The files the loader writes into the temporary directory. -/
def pullResult (adb : PurePosixPath → Except Exn Bytes) (db : PurePosixPath) :
    List (String × Bytes) :=
  (pullFilesAux adb db loaderSuffixes).1

/-- The error, if any, with which the pull loop ends. -/
def pullErr (adb : PurePosixPath → Except Exn Bytes) (db : PurePosixPath) :
    Option Exn :=
  (pullFilesAux adb db loaderSuffixes).2

/-- `connection.row_factory` values: the default tuple factory, or
`sqlite3.Row` as set by the loader. -/
inductive RowFactory where
  | default
  | row
deriving DecidableEq

/-- The connection yielded to the caller: opened against
`str(temp_dir / database.name)` over the pulled files, with
`row_factory = sqlite3.Row`. -/
structure Conn where
  primaryName : String
  files : List (String × Bytes)
  rowFactory : RowFactory
deriving DecidableEq

/-- The connection the loader yields for a given device bridge and database
path. -/
def connFor (adb : PurePosixPath → Except Exn Bytes) (db : PurePosixPath) : Conn :=
  { primaryName := db.name, files := pullResult adb db, rowFactory := RowFactory.row }

/-- Observable resource events of one loader run, in order. -/
inductive LEvent where
  | createDir
  | writeLocalFile (name : String) (bytes : Bytes)
  | openConn
  | closeConn
  | removeDir
deriving DecidableEq

/-- One full run of `open_remote_sqlite_database`: create the temporary
directory, run the pull loop, and on success open the connection, set its row
factory and yield it to `body`; every exit path then closes the connection
(when one was opened) and removes the directory, in that order, exactly as the
nested `with TemporaryDirectory()` / `with contextlib.closing(...)` blocks do.
Returns the propagated result and the event trace. -/
def runLoader {A : Type} (adb : PurePosixPath → Except Exn Bytes)
    (db : PurePosixPath) (body : Conn → Except Exn A) :
    Except Exn A × List LEvent :=
  match pullFilesAux adb db loaderSuffixes with
  | (files, some e) =>
    (.error e,
      LEvent.createDir :: (files.map fun f => LEvent.writeLocalFile f.1 f.2)
        ++ [LEvent.removeDir])
  | (files, none) =>
    (body { primaryName := db.name, files := files, rowFactory := RowFactory.row },
      LEvent.createDir :: (files.map fun f => LEvent.writeLocalFile f.1 f.2)
        ++ [LEvent.openConn, LEvent.closeConn, LEvent.removeDir])

/-- Does the temporary directory exist after a prefix of the trace?  It is
created by `createDir` and removed (with all its contents) by `removeDir`. -/
def dirStep (b : Bool) (e : LEvent) : Bool :=
  match e with
  | .createDir => true
  | .removeDir => false
  | _ => b

/-- Directory existence after the whole trace. -/
def dirAfter (evs : List LEvent) : Bool := evs.foldl dirStep false

/-- Is the connection open after an event? -/
def connStep (b : Bool) (e : LEvent) : Bool :=
  match e with
  | .openConn => true
  | .closeConn => false
  | _ => b

/-- Connection openness after the whole trace. -/
def connAfter (evs : List LEvent) : Bool := evs.foldl connStep false

/-- A read outcome that lets the pull loop continue: a successful read, or a
`FileNotFoundError` on a side file (nonempty suffix). -/
def stepOk (adb : PurePosixPath → Except Exn Bytes) (db : PurePosixPath)
    (s : String) : Prop :=
  (∃ bs, adb (remoteFile db s) = .ok bs) ∨
    (s ≠ "" ∧ ∃ e, adb (remoteFile db s) = .error (.fileNotFound e))

/-! ## The SQL literal escaper -/

/-- The single-quote character. -/
def quoteChar : Char := Char.ofNat 39

/-- The translation table `SQL_BACKSLASHED_CHARS` built by `str.maketrans`,
in source order. -/
def SQL_BACKSLASHED_CHARS : List (Char × List Char) :=
  [ (Char.ofNat 0, ['\\', '0'])
  , (Char.ofNat 8, ['\\', 'b'])
  , (Char.ofNat 9, ['\\', 't'])
  , (Char.ofNat 26, ['\\', 'z'])
  , ('\n', ['\\', 'n'])
  , ('\r', ['\\', 'r'])
  , ('\\', ['\\', '\\'])
  , ('%', ['\\', '%'])
  , (quoteChar, [quoteChar, quoteChar]) ]

/-- `str.translate`: look a character up in the table and keep it unchanged
when absent. -/
def translateChar (c : Char) : List Char :=
  (List.lookup c SQL_BACKSLASHED_CHARS).getD [c]

/-- `escape_sql_string(text)`: translate every character through the table and
wrap the result in single quotes.  Texts are embedded as character lists. -/
def escape_sql_string (s : List Char) : List Char :=
  quoteChar :: s.flatMap translateChar ++ [quoteChar]

/-- Body scanner of a SQL string literal, modelling SQLite (ISO SQL) literal
syntax, the engine the module opens its connections with: a doubled single
quote denotes one quote, a single closing quote ends the literal (which must
end the input), every other character — the backslash included — stands for
itself.  Returns the denoted text, or `none` for ill-formed input. -/
def sqlLitBody : List Char → Option (List Char)
  | [] => none
  | c :: rest =>
    if c = quoteChar then
      match rest with
      | [] => some []
      | d :: rest2 =>
        if d = quoteChar then (sqlLitBody rest2).map (fun t => quoteChar :: t)
        else none
    else (sqlLitBody rest).map (fun t => c :: t)

/-- Parse a complete SQL string literal: an opening quote followed by a body
ending in the closing quote. -/
def sqlParseLiteral : List Char → Option (List Char)
  | [] => none
  | c :: rest => if c = quoteChar then sqlLitBody rest else none

/-- The characters the table maps to backslash escape sequences (all entries
except the doubled quote). -/
def sqlBackslashedSet : List Char :=
  [Char.ofNat 0, Char.ofNat 8, Char.ofNat 9, Char.ofNat 26, '\n', '\r', '\\', '%']

/-! ## The disclosure renderer -/

/-- An OTP account, external to the module: only its `as_uri(prepend_issuer)`
capability is visible. -/
structure Account where
  asUri : Bool → String

/-- `sorted(...)` over URI strings: a stable ascending sort under the
lexicographic (code-point) order, as Python's `sorted` performs. -/
def sortedUris (uris : List String) : List String :=
  List.insertionSort (fun a b : String => a ≤ b) uris

/-- A lowercase hexadecimal digit. -/
def hexDigitChar (n : Nat) : Char :=
  if n < 10 then Char.ofNat (48 + n) else Char.ofNat (87 + n)

/-- A JSON `\uXXXX` escape for a 16-bit code unit. -/
def uEscape (n : Nat) : List Char :=
  ['\\', 'u', hexDigitChar (n / 4096 % 16), hexDigitChar (n / 256 % 16),
    hexDigitChar (n / 16 % 16), hexDigitChar (n % 16)]

/-- Per-character JSON escaping of `json.dumps` with its default
`ensure_ascii=True`: the named short escapes, `\uXXXX` for other control
characters and for everything outside printable ASCII, surrogate pairs above
the basic plane, and all remaining characters unchanged. -/
def jsonEscapeChar (c : Char) : List Char :=
  if c = Char.ofNat 34 then ['\\', Char.ofNat 34]
  else if c = '\\' then ['\\', '\\']
  else if c = '\n' then ['\\', 'n']
  else if c = '\r' then ['\\', 'r']
  else if c = '\t' then ['\\', 't']
  else if c = Char.ofNat 8 then ['\\', 'b']
  else if c = Char.ofNat 12 then ['\\', 'f']
  else if c.toNat < 32 then uEscape c.toNat
  else if c.toNat < 127 then [c]
  else if c.toNat < 65536 then uEscape c.toNat
  else uEscape (55296 + (c.toNat - 65536) / 1024) ++
    uEscape (56320 + (c.toNat - 65536) % 1024)

/-- A JSON string token for `s`. -/
def jsonQuoteStr (s : String) : List Char :=
  Char.ofNat 34 :: s.toList.flatMap jsonEscapeChar ++ [Char.ofNat 34]

/-- `n` spaces. -/
def spaces (n : Nat) : List Char := List.replicate n ' '

/-- `json.dumps(l, indent=12)` for a list of strings: `[]` when empty,
otherwise one string token per line, each indented by twelve spaces, items
separated by commas, the closing bracket on its own unindented line. -/
def dumps12 (l : List String) : List Char :=
  match l with
  | [] => ['[', ']']
  | _ =>
    '[' :: '\n' :: spaces 12 ++
      List.intercalate (',' :: '\n' :: spaces 12) (l.map jsonQuoteStr) ++
      '\n' :: [']']

/-- Python `str.replace(pat, rep)`: replace non-overlapping occurrences of
`pat` left to right (for nonempty `pat`; the module only uses `"]"`). -/
def pyReplace (pat rep : List Char) : List Char → List Char
  | [] => []
  | c :: rest =>
    match pat with
    | [] => c :: rest
    | p :: ps =>
      if c = p ∧ ps.isPrefixOf rest = true then
        rep ++ pyReplace pat rep (rest.drop ps.length)
      else c :: pyReplace pat rep rest
termination_by s => s.length
decreasing_by
  all_goals simp [List.length_drop]
  all_goals omega

/-- The renderer's post-processing step
`.replace("]", "        ]")` — eight spaces ahead of each closing bracket. -/
def bracketReplace (s : List Char) : List Char :=
  pyReplace [']'] (spaces 8 ++ [']']) s

/-- The value substituted for `%s` in the page template: the sorted URIs
serialized by `json.dumps(..., indent=12)` and post-processed by
`bracketReplace`. -/
def embeddedAccounts (uris : List String) : List Char :=
  bracketReplace (dumps12 (sortedUris uris))

/-- Modelled from the spec: `tempfile.NamedTemporaryFile` (outside this
repository) creates its file with mode `0o600` — owner read/write, no group or
world access — as the source comment `Temporary files are only readable by the
current user (mode 0600)` also records. -/
def tempFileMode : Nat := 384

/-- Observable events of one renderer run, in order. -/
inductive DEvent where
  | createFile (mode : Nat)
  | writeFile
  | openViewer
  | sleep10
  | removeFile
deriving DecidableEq

/-- The outcome of one `display_qr_codes` run. -/
structure DisplayRun where
  embedded : List Char
  events : List DEvent
  result : Except Exn Unit

/-- One run of `display_qr_codes`: build the embedded account array, write it
to a fresh `NamedTemporaryFile`, then `try` to open the viewer and sleep ten
seconds, and `finally` remove the file; a viewer failure is re-raised after
the removal.  `openOutcome` is the outcome of the external
`webbrowser.open` call. -/
def display_qr_codes (accounts : List Account) (prependIssuer : Bool)
    (openOutcome : Except Exn Unit) : DisplayRun :=
  let uris := accounts.map fun a => a.asUri prependIssuer
  let emb := embeddedAccounts uris
  match openOutcome with
  | .ok _ =>
    { embedded := emb
      events := [DEvent.createFile tempFileMode, DEvent.writeFile,
        DEvent.openViewer, DEvent.sleep10, DEvent.removeFile]
      result := .ok () }
  | .error e =>
    { embedded := emb
      events := [DEvent.createFile tempFileMode, DEvent.writeFile,
        DEvent.openViewer, DEvent.removeFile]
      result := .error e }

/-- Does the temporary HTML file exist after an event? -/
def fileStep (b : Bool) (e : DEvent) : Bool :=
  match e with
  | .createFile _ => true
  | .removeFile => false
  | _ => b

/-- Existence of the temporary HTML file after the whole trace. -/
def fileAfter (evs : List DEvent) : Bool := evs.foldl fileStep false

/-- The modes of the files a renderer run creates. -/
def createdModes (evs : List DEvent) : List Nat :=
  evs.filterMap fun e =>
    match e with
    | .createFile m => some m
    | _ => none

/-- Owner read/write and nothing else, on a POSIX mode word. -/
def ownerOnly (m : Nat) : Prop :=
  m / 64 % 8 = 6 ∧ m / 8 % 8 = 0 ∧ m % 8 = 0

/-! ## Auxiliary definitions used by the statements -/

/-- The substitution table exactly as the specification enumerates it,
written as one function per character, to compare with the source's
translation table. -/
def claimSubstitution (c : Char) : List Char :=
  if c = Char.ofNat 0 then ['\\', '0']
  else if c = Char.ofNat 8 then ['\\', 'b']
  else if c = Char.ofNat 9 then ['\\', 't']
  else if c = Char.ofNat 26 then ['\\', 'z']
  else if c = '\n' then ['\\', 'n']
  else if c = '\r' then ['\\', 'r']
  else if c = '\\' then ['\\', '\\']
  else if c = '%' then ['\\', '%']
  else if c = quoteChar then [quoteChar, quoteChar]
  else [c]

/-- A concrete database path used to exercise the loader theorems. -/
def dbW : PurePosixPath := parsePosix "/data/data/app/accounts.db"

/-- A device bridge on which every read raises `FileNotFoundError`. -/
def adbNotFound : PurePosixPath → Except Exn Bytes :=
  fun _ => .error (.fileNotFound 5)

/-- A device bridge on which only the primary database file exists. -/
def adbOnlyPrimary : PurePosixPath → Except Exn Bytes :=
  fun p => if p = dbW then .ok [1, 2, 3] else .error (.fileNotFound 7)

/-- A caller body that succeeds immediately. -/
def bodyW : Conn → Except Exn Nat := fun _ => .ok 0

/-- The two URIs of the specification's end-to-end sorting example. -/
def uriA : String := "totp://totp/A?secret=Y&period=30&digits=6"

/-- The second URI of the sorting example. -/
def uriB : String := "totp://totp/B?secret=X&period=30&digits=6"

/-- An account rendering to `uriA`. -/
def accountA : Account := { asUri := fun _ => uriA }

/-- An account rendering to `uriB`. -/
def accountB : Account := { asUri := fun _ => uriB }

/-! ## Theorems -/

lemma translateChar_eq_claimSubstitution : ∀ c, translateChar c = claimSubstitution c := by
  intro c
  by_cases h0 : c = Char.ofNat 0
  · subst h0; decide
  by_cases h1 : c = Char.ofNat 8
  · subst h1; decide
  by_cases h2 : c = Char.ofNat 9
  · subst h2; decide
  by_cases h3 : c = Char.ofNat 26
  · subst h3; decide
  by_cases h4 : c = '\n'
  · subst h4; decide
  by_cases h5 : c = '\r'
  · subst h5; decide
  by_cases h6 : c = '\\'
  · subst h6; decide
  by_cases h7 : c = '%'
  · subst h7; decide
  by_cases h8 : c = quoteChar
  · subst h8; decide
  have e0 : (c == Char.ofNat 0) = false := by simp [h0]
  have e1 : (c == Char.ofNat 8) = false := by simp [h1]
  have e2 : (c == Char.ofNat 9) = false := by simp [h2]
  have e3 : (c == Char.ofNat 26) = false := by simp [h3]
  have e4 : (c == '\n') = false := by simp [h4]
  have e5 : (c == '\r') = false := by simp [h5]
  have e6 : (c == '\\') = false := by simp [h6]
  have e7 : (c == '%') = false := by simp [h7]
  have e8 : (c == quoteChar) = false := by simp [h8]
  simp [translateChar, SQL_BACKSLASHED_CHARS, List.lookup, claimSubstitution,
    e0, e1, e2, e3, e4, e5, e6, e7, e8, h0, h1, h2, h3, h4, h5, h6, h7, h8]

/-- C6: `escape_sql_string` is total and returns its input wrapped in single
quotes after applying exactly the claimed per-character substitutions — NUL,
backspace, tab, substitute, newline, carriage return, backslash and percent to
their backslash sequences, the single quote doubled — and passing every other
character through unchanged. -/
theorem c6_escape_characterization :
    ∀ s : List Char,
      escape_sql_string s = quoteChar :: s.flatMap claimSubstitution ++ [quoteChar] := by
  intro s
  rw [escape_sql_string, funext translateChar_eq_claimSubstitution]

lemma remoteFile_name (p : PurePosixPath) (suffix : String) :
    (remoteFile p suffix).name = p.name ++ suffix := by
  simp [remoteFile, PurePosixPath.withName, PurePosixPath.name]

lemma remoteFile_empty_suffix (p : PurePosixPath) (h : p.parts ≠ []) :
    remoteFile p "" = p := by
  have hname : p.name = p.parts.getLast h := by
    simp [PurePosixPath.name, List.getLast?_eq_getLast p.parts h]
  cases p with
  | mk abs parts =>
    simp only [remoteFile, PurePosixPath.withName, hname]
    simp [List.dropLast_append_getLast h]

/-- C4: for every database path with a file name, the four candidate remote
paths are the path itself and the path with `-journal`, `-wal`, `-shm`
appended after the full file name component (same parent, same absoluteness,
name extended by the suffix); concretely, `accounts.db` becomes
`accounts.db-wal`, never `accounts-wal.db`. -/
theorem c4_candidate_paths :
    ∀ p : PurePosixPath, p.parts ≠ [] →
      loaderSuffixes.map (remoteFile p) =
          [p, remoteFile p "-journal", remoteFile p "-wal", remoteFile p "-shm"]
        ∧ (∀ suffix : String,
            (remoteFile p suffix).name = p.name ++ suffix
              ∧ (remoteFile p suffix).parts.dropLast = p.parts.dropLast
              ∧ (remoteFile p suffix).absolute = p.absolute)
        ∧ remoteFile (parsePosix "/data/data/app/accounts.db") "-wal"
            = parsePosix "/data/data/app/accounts.db-wal"
        ∧ (remoteFile (parsePosix "/data/data/app/accounts.db") "-wal").name
            = "accounts.db-wal" := by
  intro p h
  refine ⟨?_, ?_, by decide, by decide⟩
  · simp [loaderSuffixes, remoteFile_empty_suffix p h]
  · intro suffix
    exact ⟨remoteFile_name p suffix,
      by simp [remoteFile, PurePosixPath.withName],
      by simp [remoteFile, PurePosixPath.withName]⟩

/-- Witness for C4 at the path `/data/data/app/accounts.db`: the first
candidate is the path itself. -/
theorem c4_witness :
    loaderSuffixes.map (remoteFile dbW) =
      [dbW, remoteFile dbW "-journal", remoteFile dbW "-wal", remoteFile dbW "-shm"] :=
  (c4_candidate_paths dbW (by decide)).1

lemma pullAux_err_none_of_stepOk (adb : PurePosixPath → Except Exn Bytes)
    (db : PurePosixPath) :
    ∀ l : List String, (∀ s ∈ l, stepOk adb db s) →
      (pullFilesAux adb db l).2 = none := by
  intro l
  induction l with
  | nil => intro _; simp [pullFilesAux]
  | cons t rest ih =>
    intro h
    rcases h t (by simp) with ⟨bs, hbs⟩ | ⟨hne, e, he⟩
    · simp only [pullFilesAux, hbs]
      exact ih fun s hs => h s (by simp [hs])
    · simp only [pullFilesAux, he, if_neg hne]
      exact ih fun s hs => h s (by simp [hs])

lemma pullAux_mem (adb : PurePosixPath → Except Exn Bytes) (db : PurePosixPath) :
    ∀ (l : List String) (s : String) (bs : Bytes), s ∈ l →
      adb (remoteFile db s) = .ok bs →
      (pullFilesAux adb db l).2 = none →
      ((remoteFile db s).name, bs) ∈ (pullFilesAux adb db l).1 := by
  intro l
  induction l with
  | nil => intro s bs hs; simp at hs
  | cons t rest ih =>
    intro s bs hs hok herr
    rcases List.mem_cons.mp hs with heq | htail
    · subst heq
      simp only [pullFilesAux, hok]
      simp
    · cases hadb : adb (remoteFile db t) with
      | ok b =>
        simp only [pullFilesAux, hadb] at herr ⊢
        simpa using Or.inr (ih s bs htail hok herr)
      | error err =>
        cases err with
        | fileNotFound e =>
          by_cases ht : t = ""
          · simp [pullFilesAux, hadb, if_pos ht] at herr
          · simp only [pullFilesAux, hadb, if_neg ht] at herr ⊢
            exact ih s bs htail hok herr
        | other e => simp [pullFilesAux, hadb] at herr

lemma pullAux_other_error (adb : PurePosixPath → Except Exn Bytes)
    (db : PurePosixPath) :
    ∀ (pre : List String) (s : String) (rest : List String) (e : Nat),
      (∀ t ∈ pre, stepOk adb db t) →
      adb (remoteFile db s) = .error (.other e) →
      (pullFilesAux adb db (pre ++ s :: rest)).2 = some (.other e) := by
  intro pre
  induction pre with
  | nil => intro s rest e _ hs; simp [pullFilesAux, hs]
  | cons t pre' ih =>
    intro s rest e h hs
    rcases h t (by simp) with ⟨bs, hbs⟩ | ⟨hne, e', he⟩
    · simp only [List.cons_append, pullFilesAux, hbs]
      exact ih s rest e (fun u hu => h u (by simp [hu])) hs
    · simp only [List.cons_append, pullFilesAux, he, if_neg hne]
      exact ih s rest e (fun u hu => h u (by simp [hu])) hs

/-- C1: error handling of the snapshot loader.  A `FileNotFoundError` on the
primary database file propagates to the caller unchanged; when every read
either succeeds or is a `FileNotFoundError` on a side file, the loader skips
the absent side files and continues to yield the connection to the caller; and
an error of any other class on any of the four files, reached after the
earlier reads allowed the loop to continue, propagates to the caller. -/
theorem c1_loader_error_propagation :
    ∀ (A : Type) (adb : PurePosixPath → Except Exn Bytes) (db : PurePosixPath)
      (body : Conn → Except Exn A), db.parts ≠ [] →
      ((∀ e, adb (remoteFile db "") = .error (.fileNotFound e) →
          (runLoader adb db body).1 = .error (.fileNotFound e))
        ∧ ((∀ s ∈ loaderSuffixes, stepOk adb db s) →
            (runLoader adb db body).1 = body (connFor adb db))
        ∧ (∀ (pre rest : List String) (s : String) (e : Nat),
            loaderSuffixes = pre ++ s :: rest →
            (∀ t ∈ pre, stepOk adb db t) →
            adb (remoteFile db s) = .error (.other e) →
            (runLoader adb db body).1 = .error (.other e))) := by
  intro A adb db body _
  refine ⟨?_, ?_, ?_⟩
  · intro e he
    have hp : pullFilesAux adb db loaderSuffixes = ([], some (.fileNotFound e)) := by
      simp [loaderSuffixes, pullFilesAux, he]
    simp [runLoader, hp]
  · intro h
    have herr := pullAux_err_none_of_stepOk adb db loaderSuffixes h
    rcases hp : pullFilesAux adb db loaderSuffixes with ⟨files, err⟩
    rw [hp] at herr
    subst herr
    simp only [runLoader, hp]
    have : connFor adb db = { primaryName := db.name, files := files, rowFactory := RowFactory.row } := by
      simp [connFor, pullResult, hp]
    rw [this]
  · intro pre rest s e hdecomp h hs
    have herr := pullAux_other_error adb db pre s rest e h hs
    rw [← hdecomp] at herr
    rcases hp : pullFilesAux adb db loaderSuffixes with ⟨files, err⟩
    rw [hp] at herr
    subst herr
    simp [runLoader, hp]

/-- Witness for C1: on a bridge where every read raises `FileNotFoundError`
with identity `5`, the loader propagates exactly that failure. -/
theorem c1_witness :
    (runLoader adbNotFound dbW bodyW).1 = .error (.fileNotFound 5) :=
  (c1_loader_error_propagation Nat adbNotFound dbW bodyW (by decide)).1 5 rfl

lemma foldl_dirStep_writes (ws : List (String × Bytes)) (b : Bool) :
    List.foldl dirStep b (ws.map fun f => LEvent.writeLocalFile f.1 f.2) = b := by
  induction ws generalizing b with
  | nil => rfl
  | cons w ws ih => simp [dirStep, ih]

lemma foldl_connStep_writes (ws : List (String × Bytes)) (b : Bool) :
    List.foldl connStep b (ws.map fun f => LEvent.writeLocalFile f.1 f.2) = b := by
  induction ws generalizing b with
  | nil => rfl
  | cons w ws ih => simp [connStep, ih]

/-- C2: on every exit path of the loader's scoped block — normal return,
primary-file not-found, any other pull failure, or a failure raised by the
caller's body — the trace ends with the removal of the snapshot directory,
the directory no longer exists afterwards, the connection is no longer open,
the directory is removed exactly once, and whenever a connection was opened
the event immediately preceding the removal is its closing. -/
theorem c2_scoped_cleanup :
    ∀ (A : Type) (adb : PurePosixPath → Except Exn Bytes) (db : PurePosixPath)
      (body : Conn → Except Exn A), db.parts ≠ [] →
      dirAfter (runLoader adb db body).2 = false
        ∧ connAfter (runLoader adb db body).2 = false
        ∧ ∃ pre, (runLoader adb db body).2 = pre ++ [LEvent.removeDir]
            ∧ LEvent.removeDir ∉ pre
            ∧ (LEvent.openConn ∈ pre → pre.getLast? = some LEvent.closeConn) := by
  intro A adb db body _
  rcases hp : pullFilesAux adb db loaderSuffixes with ⟨files, err⟩
  cases err with
  | some e =>
    refine ⟨?_, ?_, ⟨LEvent.createDir :: (files.map fun f => LEvent.writeLocalFile f.1 f.2), ?_, ?_, ?_⟩⟩
    · simp [runLoader, hp, dirAfter, List.foldl_append, foldl_dirStep_writes, dirStep]
    · simp [runLoader, hp, connAfter, List.foldl_append, foldl_connStep_writes, connStep]
    · simp [runLoader, hp]
    · simp
    · intro hmem
      simp at hmem
  | none =>
    refine ⟨?_, ?_,
      ⟨LEvent.createDir :: (files.map fun f => LEvent.writeLocalFile f.1 f.2)
          ++ [LEvent.openConn, LEvent.closeConn], ?_, ?_, ?_⟩⟩
    · simp [runLoader, hp, dirAfter, List.foldl_append, foldl_dirStep_writes, dirStep]
    · simp [runLoader, hp, connAfter, List.foldl_append, foldl_connStep_writes, connStep]
    · simp [runLoader, hp]
    · simp
    · intro _
      rw [show LEvent.createDir :: (files.map fun f => LEvent.writeLocalFile f.1 f.2)
            ++ [LEvent.openConn, LEvent.closeConn]
          = (LEvent.createDir :: (files.map fun f => LEvent.writeLocalFile f.1 f.2)
            ++ [LEvent.openConn]) ++ [LEvent.closeConn] by simp]
      exact List.getLast?_concat _

/-- Witness for C2: after a run in which the primary file is absent, the
snapshot directory no longer exists. -/
theorem c2_witness :
    dirAfter (runLoader adbNotFound dbW bodyW).2 = false :=
  (c2_scoped_cleanup Nat adbNotFound dbW bodyW (by decide)).1

/-- C8: every successfully read remote file is persisted into the snapshot
directory under its own base name (`database.name ++ suffix`) with its exact
byte content; and when only the primary file exists remotely — every side-file
read raising `FileNotFoundError` — the pull succeeds and the directory
contains exactly the one primary file. -/
theorem c8_persisted_files :
    ∀ (adb : PurePosixPath → Except Exn Bytes) (db : PurePosixPath), db.parts ≠ [] →
      ((∀ (s : String) (bs : Bytes), s ∈ loaderSuffixes →
          adb (remoteFile db s) = .ok bs → pullErr adb db = none →
          (db.name ++ s, bs) ∈ pullResult adb db)
        ∧ (∀ bs : Bytes, adb (remoteFile db "") = .ok bs →
            (∀ s ∈ sideSuffixes, ∃ e, adb (remoteFile db s) = .error (.fileNotFound e)) →
            pullResult adb db = [(db.name, bs)] ∧ pullErr adb db = none)) := by
  intro adb db _
  constructor
  · intro s bs hs hok herr
    have h := pullAux_mem adb db loaderSuffixes s bs hs hok herr
    rwa [remoteFile_name] at h
  · intro bs hprim hside
    obtain ⟨e1, hj⟩ := hside "-journal" (by simp [sideSuffixes])
    obtain ⟨e2, hw⟩ := hside "-wal" (by simp [sideSuffixes])
    obtain ⟨e3, hm⟩ := hside "-shm" (by simp [sideSuffixes])
    have hne1 : ("-journal" : String) ≠ "" := by decide
    have hne2 : ("-wal" : String) ≠ "" := by decide
    have hne3 : ("-shm" : String) ≠ "" := by decide
    constructor
    · simp [pullResult, loaderSuffixes, pullFilesAux, hprim, hj, hw, hm,
        if_neg hne1, if_neg hne2, if_neg hne3, remoteFile_name]
    · simp [pullErr, loaderSuffixes, pullFilesAux, hprim, hj, hw, hm,
        if_neg hne1, if_neg hne2, if_neg hne3]

/-- Witness for C8: on a bridge where only `/data/data/app/accounts.db`
exists, retrieval persists exactly that one file with its bytes intact. -/
theorem c8_witness :
    pullResult adbOnlyPrimary dbW = [(dbW.name, [1, 2, 3])]
      ∧ pullErr adbOnlyPrimary dbW = none :=
  (c8_persisted_files adbOnlyPrimary dbW (by decide)).2 [1, 2, 3] rfl
    (fun s hs => by
      fin_cases hs <;> exact ⟨7, rfl⟩)

/-- C3: whether the viewer-open step succeeds or raises, every renderer run
ends with the temporary HTML file removed — removal is the final event, the
file does not exist when the call returns or re-raises — and the open step's
outcome (success or failure) is what the call propagates. -/
theorem c3_renderer_cleanup :
    ∀ (accounts : List Account) (prependIssuer : Bool) (openOutcome : Except Exn Unit),
      fileAfter (display_qr_codes accounts prependIssuer openOutcome).events = false
        ∧ (display_qr_codes accounts prependIssuer openOutcome).events.getLast?
            = some DEvent.removeFile
        ∧ (display_qr_codes accounts prependIssuer openOutcome).result = openOutcome := by
  intro accounts prependIssuer openOutcome
  cases openOutcome with
  | ok u =>
    cases u
    exact ⟨rfl, rfl, rfl⟩
  | error e =>
    exact ⟨rfl, rfl, rfl⟩

/-- C9: every file a renderer run creates is the single temporary HTML file
with mode `0o600` — owner read and write, no group and no world bits. -/
theorem c9_temp_file_mode :
    ∀ (accounts : List Account) (prependIssuer : Bool) (openOutcome : Except Exn Unit),
      createdModes (display_qr_codes accounts prependIssuer openOutcome).events
          = [tempFileMode]
        ∧ ownerOnly tempFileMode := by
  intro accounts prependIssuer openOutcome
  refine ⟨?_, by decide, by decide, by decide⟩
  cases openOutcome <;> rfl

lemma translateChar_safe (c : Char) (hq : c ≠ quoteChar) (hb : c ∉ sqlBackslashedSet) :
    translateChar c = [c] := by
  rw [translateChar_eq_claimSubstitution]
  simp only [sqlBackslashedSet, List.mem_cons, List.not_mem_nil, or_false] at hb
  push_neg at hb
  obtain ⟨h1, h2, h3, h4, h5, h6, h7, h8⟩ := hb
  simp [claimSubstitution, h1, h2, h3, h4, h5, h6, h7, h8, hq]

lemma sqlLitBody_cons_ne (c : Char) (rest : List Char) (hq : c ≠ quoteChar) :
    sqlLitBody (c :: rest) = (sqlLitBody rest).map (fun t => c :: t) := by
  rw [sqlLitBody.eq_def]
  simp [hq]

lemma sqlLitBody_quote_quote (rest : List Char) :
    sqlLitBody (quoteChar :: quoteChar :: rest)
      = (sqlLitBody rest).map (fun t => quoteChar :: t) := by
  rw [sqlLitBody]
  simp

lemma sqlLitBody_append_safe :
    ∀ s : List Char, (∀ c ∈ s, c ∉ sqlBackslashedSet) →
      sqlLitBody (s.flatMap translateChar ++ [quoteChar]) = some s := by
  intro s
  induction s with
  | nil => intro _; simp [sqlLitBody]
  | cons c rest ih =>
    intro h
    have hrest := ih fun d hd => h d (by simp [hd])
    by_cases hq : c = quoteChar
    · subst hq
      have ht : translateChar quoteChar = [quoteChar, quoteChar] := by decide
      simp only [List.flatMap_cons, ht, List.cons_append, List.nil_append,
        List.append_assoc]
      rw [sqlLitBody_quote_quote, hrest]
      rfl
    · have ht : translateChar c = [c] := translateChar_safe c hq (h c (by simp))
      simp only [List.flatMap_cons, ht, List.cons_append, List.nil_append,
        List.append_assoc]
      rw [sqlLitBody_cons_ne c _ hq, hrest]
      rfl

/-- C5 counterexample: the claim fails at the one-character string consisting
of a newline.  `escape_sql_string` turns it into the literal `'\n'`, which SQL
string-literal parsing (backslash not an escape character) reads back as the
two characters backslash-`n`, not as a newline. -/
theorem c5_counterexample :
    sqlParseLiteral (escape_sql_string ['\n']) = some ['\\', 'n']
      ∧ sqlParseLiteral (escape_sql_string ['\n']) ≠ some ['\n'] := by
  decide

/-- C5 amended: the escape/re-parse round-trip holds for every string — the
empty string and strings with single quotes included — that contains none of
the eight characters the table maps to backslash sequences (NUL, backspace,
tab, substitute, newline, carriage return, backslash, percent); for those
characters the backslash sequence survives as literal text, as the
counterexample shows. -/
theorem c5_escape_roundtrip_safe :
    ∀ s : List Char, (∀ c ∈ s, c ∉ sqlBackslashedSet) →
      sqlParseLiteral (escape_sql_string s) = some s := by
  intro s h
  rw [escape_sql_string]
  simp [sqlParseLiteral, sqlLitBody_append_safe s h]

/-- Witness for the amended C5 at the string consisting of `a` and a single
quote: escaping and re-parsing returns it exactly. -/
theorem c5_witness :
    sqlParseLiteral (escape_sql_string ['a', quoteChar]) = some ['a', quoteChar] :=
  c5_escape_roundtrip_safe ['a', quoteChar] (by decide)

lemma sortedUris_perm_eq {l1 l2 : List String} (h : l1.Perm l2) :
    sortedUris l1 = sortedUris l2 := by
  have h1 : List.Sorted (fun a b : String => a ≤ b) (sortedUris l1) :=
    List.sorted_insertionSort _ l1
  have h2 : List.Sorted (fun a b : String => a ≤ b) (sortedUris l2) :=
    List.sorted_insertionSort _ l2
  have hp : (sortedUris l1).Perm (sortedUris l2) :=
    (List.perm_insertionSort _ l1).trans (h.trans (List.perm_insertionSort _ l2).symm)
  exact List.eq_of_perm_of_sorted hp h1 h2

/-- C7: the embedded URI content is determined by the multiset of account
URIs — two renderings of permuted account lists produce byte-identical
embedded content; the embedded list is the account URIs sorted
lexicographically (a sorted permutation of them); and on the specification's
example the `A` URI is placed before the `B` URI. -/
theorem c7_sorted_embedding :
    (∀ (accs1 accs2 : List Account) (prependIssuer : Bool)
        (r1 r2 : Except Exn Unit),
        (accs1.map fun a => a.asUri prependIssuer).Perm
            (accs2.map fun a => a.asUri prependIssuer) →
        (display_qr_codes accs1 prependIssuer r1).embedded
          = (display_qr_codes accs2 prependIssuer r2).embedded)
      ∧ (∀ uris : List String,
          List.Sorted (fun a b : String => a ≤ b) (sortedUris uris)
            ∧ (sortedUris uris).Perm uris)
      ∧ sortedUris [uriB, uriA] = [uriA, uriB] := by
  refine ⟨?_, ?_, ?_⟩
  · intro accs1 accs2 prependIssuer r1 r2 hperm
    have h := sortedUris_perm_eq hperm
    cases r1 <;> cases r2 <;> simp [display_qr_codes, embeddedAccounts, h]
  · intro uris
    exact ⟨List.sorted_insertionSort _ _, List.perm_insertionSort _ _⟩
  · have hBA : ¬ (uriB ≤ uriA) := by
      rw [String.le_iff_toList_le]
      decide
    simp [sortedUris, List.insertionSort, List.orderedInsert, hBA]

/-- Witness for C7: rendering the example accounts in either order yields the
same embedded content. -/
theorem c7_witness :
    (display_qr_codes [accountB, accountA] false (.ok ())).embedded
      = (display_qr_codes [accountA, accountB] false (.ok ())).embedded :=
  c7_sorted_embedding.1 [accountB, accountA] [accountA, accountB] false _ _
    (List.Perm.swap uriA uriB [])

lemma pyReplace_single (p : Char) (rep : List Char) :
    ∀ s : List Char,
      pyReplace [p] rep s = s.flatMap fun c => if c = p then rep else [c] := by
  intro s
  induction s with
  | nil => simp [pyReplace]
  | cons c rest ih =>
    rw [pyReplace]
    by_cases hc : c = p
    · simp [hc, List.isPrefixOf, ih]
    · simp [hc, List.isPrefixOf, ih]

lemma flatMap_bracket_length (s : List Char) :
    (s.flatMap fun c => if c = ']' then spaces 8 ++ [']'] else [c]).length
      = s.length + 8 * s.count ']' := by
  induction s with
  | nil => simp
  | cons c rest ih =>
    by_cases hc : c = ']'
    · rw [List.flatMap_cons, List.length_append, ih]
      simp [hc, spaces, List.count_cons]
      omega
    · rw [List.flatMap_cons, List.length_append, ih]
      simp [hc, Ne.symm hc, List.count_cons]
      omega

lemma bracketReplace_length (s : List Char) :
    (bracketReplace s).length = s.length + 8 * s.count ']' := by
  rw [bracketReplace, pyReplace_single]
  exact flatMap_bracket_length s

lemma bracketReplace_ne (s : List Char) (h : ']' ∈ s) : bracketReplace s ≠ s := by
  intro he
  have hl := congrArg List.length he
  rw [bracketReplace_length] at hl
  have hc : s.count ']' ≠ 0 := by
    simpa [List.count_eq_zero] using h
  omega

lemma mem_dumps12 (l : List String) : ']' ∈ dumps12 l := by
  cases l <;> simp [dumps12]

lemma mem_jsonQuote (u : String) (h : ']' ∈ u.toList) : ']' ∈ jsonQuoteStr u := by
  rw [jsonQuoteStr]
  have hm : ']' ∈ u.toList.flatMap jsonEscapeChar :=
    List.mem_flatMap.mpr ⟨']', h, by decide⟩
  exact List.mem_cons_of_mem _ (List.mem_append_left _ hm)

/-- C10: the renderer's post-processing inserts eight spaces before every `]`
character of the serialized array; consequently the embedded content is never
the plain JSON serialization when some URI contains `]` (the serialization
always ends in `]`, so the two always differ), and for every URI containing
`]` the post-processed JSON string token differs from the token that denoted
the URI. -/
theorem c10_bracket_replace :
    (∀ s : List Char,
        bracketReplace s = s.flatMap fun c => if c = ']' then spaces 8 ++ [']'] else [c])
      ∧ (∀ uris : List String, (∃ u ∈ uris, ']' ∈ u.toList) →
          embeddedAccounts uris ≠ dumps12 (sortedUris uris))
      ∧ (∀ u : String, ']' ∈ u.toList →
          bracketReplace (jsonQuoteStr u) ≠ jsonQuoteStr u) := by
  refine ⟨pyReplace_single ']' _, ?_, ?_⟩
  · intro uris _
    rw [embeddedAccounts]
    exact bracketReplace_ne _ (mem_dumps12 _)
  · intro u h
    exact bracketReplace_ne _ (mem_jsonQuote u h)

/-- Witness for C10: the JSON token of the URI `]` is altered by the
post-processing. -/
theorem c10_witness :
    bracketReplace (jsonQuoteStr "]") ≠ jsonQuoteStr "]" :=
  c10_bracket_replace.2.2 "]" (by decide)
